import Mathlib

/-!
# Verification of the `reedsolomon16` Reed-Solomon erasure-coding library

Shallow embedding of the Go sources (package `reedsolomon`): the streaming
adaptor (`streaming8.go`), the unified façade (`reedsolomon.go`), the Galois
bridge (`galois_bridge.go`) and the radix-2/radix-4 FFT butterflies (the
NEON dispatch file).  Bytes are modelled as `Nat` (values below 256; XOR is
`Nat.xor`), byte streams as `List Nat`, an `io.Reader` as the list of bytes
it will deliver, an `io.Writer` as the list of bytes it has received, and a
nil reader/writer as `Option.none`.  Fallible Go functions return `Except`.
-/

set_option autoImplicit false

/-- The error values of `reedsolomon.go` (`ErrInvShardNum`, `ErrMaxShardNum`,
`ErrTooFewShards`, `ErrShardNoData`, `ErrShardSize`, `ErrShortData`,
`ErrReconstructMismatch`, `ErrNilWriter`, `ErrSize`). -/
inductive RSErr where
  | invShardNum
  | maxShardNum
  | tooFewShards
  | shardNoData
  | shardSize
  | shortData
  | reconstructMismatch
  | nilWriter
  | sizeErr
  deriving DecidableEq, Repr

/-- The recurring Go idiom `if x%64 != 0 { x = ((x + 63) / 64) * 64 }`:
round `x` up to the next multiple of the 64-byte SIMD alignment. -/
def alignUp64 (x : Nat) : Nat :=
  if x % 64 = 0 then x else ((x + 63) / 64) * 64

theorem alignUp64_eq (x : Nat) : alignUp64 x = ((x + 63) / 64) * 64 := by
  unfold alignUp64
  by_cases h : x % 64 = 0
  · rw [if_pos h]
    have h1 := Nat.div_add_mod (x + 63) 64
    have h2 : (x + 63) % 64 < 64 := Nat.mod_lt _ (by omega)
    have h3 := Nat.div_add_mod x 64
    omega
  · rw [if_neg h]

theorem le_alignUp64 (x : Nat) : x ≤ alignUp64 x := by
  rw [alignUp64_eq]
  have h1 := Nat.div_add_mod (x + 63) 64
  have h2 : (x + 63) % 64 < 64 := Nat.mod_lt _ (by omega)
  omega

theorem alignUp64_mod (x : Nat) : alignUp64 x % 64 = 0 := by
  rw [alignUp64_eq]; exact Nat.mul_mod_left _ _

theorem alignUp64_lt (x : Nat) : alignUp64 x < x + 64 := by
  rw [alignUp64_eq]
  have h1 := Nat.div_add_mod (x + 63) 64
  have h2 : (x + 63) % 64 < 64 := Nat.mod_lt _ (by omega)
  omega

/-! ## C8 — the façade constructor (`reedsolomon.go`, `New`/`New8`/`New16`)

`New` itself is in `src/reedsolomon.go`; the backend constructors
`newFF8`/`newFF16` that it reaches through `newReedSolomon8/16` are not in
the sources (only their call sites are). -/

/-- The two monomorphic backends selected by `New`. -/
inductive Backend where
  | ff8
  | ff16
  deriving DecidableEq, Repr

/-- Modelled from the spec: `newFF8` is absent from the sources (only its
callers in `reedsolomon.go` and `streaming8.go` are).  Per §3 and §6 the
GF(2^8) backend accepts `1 ≤ k`, `1 ≤ m`, `k + m ≤ 256`, rejecting
non-positive counts with `InvalidShardNum` and overlarge totals with
`MaxShardNum`. -/
def newFF8 (dataShards parityShards : Int) : Except RSErr Backend :=
  if dataShards ≤ 0 ∨ parityShards ≤ 0 then .error .invShardNum
  else if dataShards + parityShards > 256 then .error .maxShardNum
  else .ok .ff8

/-- Modelled from the spec: `newFF16` is absent from the sources.  Per §3 and
§6 the GF(2^16) backend accepts `1 ≤ k`, `1 ≤ m`, `k + m ≤ 65536`. -/
def newFF16 (dataShards parityShards : Int) : Except RSErr Backend :=
  if dataShards ≤ 0 ∨ parityShards ≤ 0 then .error .invShardNum
  else if dataShards + parityShards > 65536 then .error .maxShardNum
  else .ok .ff16

/-- `New` from `reedsolomon.go`: validate positivity, then pick the GF(2^8)
backend when `k + m ≤ 256` and the GF(2^16) backend otherwise. -/
def NewCodec (dataShards parityShards : Int) : Except RSErr Backend :=
  if dataShards ≤ 0 ∨ parityShards ≤ 0 then .error .invShardNum
  else if dataShards + parityShards ≤ 256 then newFF8 dataShards parityShards
  else newFF16 dataShards parityShards

/-! ## C9 — the Galois bridge (`galois_bridge.go`) -/

/-- `GaloisAdd` from `galois_bridge.go`: bitwise XOR. -/
def GaloisAdd (a b : Nat) : Nat := a ^^^ b

/-- `GaloisMultiply` from `galois_bridge.go`: the stub implementation
returns `a ^ b` (bitwise XOR), not a field product. -/
def GaloisMultiply (a b : Nat) : Nat := a ^^^ b

/-- `GaloisDivide` from `galois_bridge.go`: panics (`none`) on a zero
divisor, otherwise returns `a` unchanged. -/
def GaloisDivide (a b : Nat) : Option Nat :=
  if b = 0 then none else some a

/-! ## C10 — `StreamReconstructData` façade (`reedsolomon.go` 191-202 / 299-310)

The method builds `dataOnlyOutputs` by reading `outputs[i]` for every
`i < dataShards` before any validation; an out-of-range index is a Go panic,
modelled as `Option.none` around the result. -/

/-- The loop `for i := 0; i < r.dataShards; i++ { dataOnlyOutputs[i] = outputs[i] }`
over a fresh `make([]io.Writer, r.totalShards)`.  Returns `none` (panic)
as soon as an index is out of range. -/
def copyDataOutputs {α : Type} (dataShards totalShards : Nat) (outputs : List (Option α)) :
    Option (List (Option α)) :=
  if dataShards ≤ outputs.length then
    some (outputs.take dataShards ++ List.replicate (totalShards - dataShards) none)
  else none

theorem copyDataOutputs_spec {α : Type} (dataShards totalShards : Nat)
    (outputs : List (Option α)) :
    (dataShards ≤ outputs.length ↔ (copyDataOutputs dataShards totalShards outputs).isSome) := by
  unfold copyDataOutputs
  by_cases h : dataShards ≤ outputs.length <;> simp [h]

/-! ## Butterflies (C3, C4)

From the NEON dispatch file (`src/unnamed/part_002`): `fftDIT2`, `ifftDIT2`,
`fftDIT28`, `ifftDIT28`, and the radix-4 entry points delegating to the
reference radix-4 butterflies.  The kernels `mulAdd8`/`refMulAdd`/`sliceXor`
bodies live in files absent from `src/`, so their byte semantics is modelled
from the spec (§4.1, §4.2, glossary). -/

/-- `MODULUS` for GF(2^8): `2^8 - 1`. -/
def modulus8 : Nat := 255

/-- `MODULUS` for GF(2^16): `2^16 - 1`. -/
def modulus16 : Nat := 65535

/-- One multiplication by `x` of the GF(2^8) generator polynomial step
(`0x11D`), used to realize the spec's `exp` table. -/
def gfShift8 (x : Nat) : Nat := if x * 2 < 256 then x * 2 else (x * 2) ^^^ 0x11D

/-- Modelled from the spec: `exp[i] = g^i` over GF(2^8) (§4.1).  The concrete
generator/polynomial is not fixed by the sources (the table builders are
absent from `src/`); we use the standard `g = 2` over `0x11D`.  The claims
below rely only on the sentinel branch of `mulLog8` and on functionality. -/
def exp8 : Nat → Nat
  | 0 => 1
  | n + 1 => gfShift8 (exp8 n)

/-- Modelled from the spec: `log[x]` is the inverse of `exp` (§4.1). -/
def log8 (a : Nat) : Nat := (List.range 255).findIdx (fun i => exp8 i == a)

/-- Modelled from the spec: multiply a byte by the constant with logarithm
`log_m` (§4.1/§4.2).  Per the glossary, the `MODULUS` sentinel value means
"multiply by one", which is also what `exp[(log a + MODULUS) mod MODULUS]`
evaluates to. -/
def mulLog8 (log_m a : Nat) : Nat :=
  if log_m = modulus8 then a
  else if a = 0 then 0 else exp8 ((log8 a + log_m) % 255)

/-- Same for GF(2^16), over words. -/
def gfShift16 (x : Nat) : Nat := if x * 2 < 65536 then x * 2 else (x * 2) ^^^ 0x1100B

/-- Modelled from the spec: `exp` over GF(2^16) (§4.1); see `exp8`. -/
def exp16 : Nat → Nat
  | 0 => 1
  | n + 1 => gfShift16 (exp16 n)

/-- Modelled from the spec: `log` over GF(2^16) (§4.1). -/
def log16 (a : Nat) : Nat := (List.range 65535).findIdx (fun i => exp16 i == a)

/-- Modelled from the spec: multiply a 16-bit word by the constant with
logarithm `log_m`; `MODULUS` is "multiply by one" (glossary). -/
def mulLog16 (log_m a : Nat) : Nat :=
  if log_m = modulus16 then a
  else if a = 0 then 0 else exp16 ((log16 a + log_m) % 65535)

/-- Modelled from the spec: `xor_slice` (§4.2).  The Go kernels have
signature `sliceXor(in, out)` / `xorSliceNEON(in, out)` and perform
`out ^= in`; the result is the updated `out`. -/
def sliceXor (inp out : List Nat) : List Nat :=
  List.zipWith (fun o i => o ^^^ i) out inp

/-- Modelled from the spec: `mul_add(x, y, log_c) → x ^= c·y` (§4.2); the
Go `mulAdd8(out, in, log_m)` updates `out` bytewise. -/
def mulAdd8 (out inp : List Nat) (log_m : Nat) : List Nat :=
  List.zipWith (fun o i => o ^^^ mulLog8 log_m i) out inp

/-- Modelled from the spec: the 16-bit reference multiply-add
`refMulAdd(x, y, log_m) → x ^= y·c` (§4.2), over words. -/
def refMulAdd (out inp : List Nat) (log_m : Nat) : List Nat :=
  List.zipWith (fun o i => o ^^^ mulLog16 log_m i) out inp

/-- `fftDIT28` from the NEON dispatch file: `mulAdd8(x, y, log_m)` then
`sliceXor(x, y)` — multiply-accumulate into `x`, then XOR the updated `x`
into `y`.  No branch on the `MODULUS` sentinel. -/
def fftDIT28 (x y : List Nat) (log_m : Nat) : List Nat × List Nat :=
  let x1 := mulAdd8 x y log_m
  let y1 := sliceXor x1 y
  (x1, y1)

/-- `ifftDIT28` from the NEON dispatch file: `sliceXor(x, y)` then
`mulAdd8(x, y, log_m)` — the same two steps in the opposite order. -/
def ifftDIT28 (x y : List Nat) (log_m : Nat) : List Nat × List Nat :=
  let y1 := sliceXor x y
  let x1 := mulAdd8 x y1 log_m
  (x1, y1)

/-- `fftDIT2` (16-bit) from the NEON dispatch file: `refMulAdd(x, y, log_m)`
then `xorSliceNEON(x, y)`. -/
def fftDIT2 (x y : List Nat) (log_m : Nat) : List Nat × List Nat :=
  let x1 := refMulAdd x y log_m
  let y1 := sliceXor x1 y
  (x1, y1)

/-- `ifftDIT2` (16-bit) from the NEON dispatch file: `xorSliceNEON(x, y)`
then `refMulAdd(x, y, log_m)`. -/
def ifftDIT2 (x y : List Nat) (log_m : Nat) : List Nat × List Nat :=
  let y1 := sliceXor x y
  let x1 := refMulAdd x y1 log_m
  (x1, y1)

/-- Modelled from the spec: the radix-4 reference butterfly `fftDIT4Ref8`
(reached from `fftDIT48` in the NEON dispatch file) is absent from `src/`;
reconstructed from §4.4 and the design document's `fftDIT4`: two levels of
radix-2 butterflies, each level short-circuiting to a plain XOR when its
log-twiddle equals `MODULUS`. -/
def fftDIT4Ref8 (w0 w1 w2 w3 : List Nat) (log_m01 log_m23 log_m02 : Nat) :
    (List Nat × List Nat) × (List Nat × List Nat) :=
  -- first layer (distance 2·dist)
  let s1 :=
    if log_m02 = modulus8 then ((w0, sliceXor w0 w2), (w1, sliceXor w1 w3))
    else (fftDIT28 w0 w2 log_m02, fftDIT28 w1 w3 log_m02)
  let a0 := s1.1.1
  let a2 := s1.1.2
  let a1 := s1.2.1
  let a3 := s1.2.2
  -- second layer (distance dist)
  let p01 :=
    if log_m01 = modulus8 then (a0, sliceXor a0 a1) else fftDIT28 a0 a1 log_m01
  let p23 :=
    if log_m23 = modulus8 then (a2, sliceXor a2 a3) else fftDIT28 a2 a3 log_m23
  ((p01.1, p01.2), (p23.1, p23.2))

/-! ### XOR cancellation lemmas for the butterfly proofs -/

theorem zipXorF_cancel (f : Nat → Nat) :
    ∀ (x y : List Nat), x.length = y.length →
      List.zipWith (fun o i => o ^^^ f i) (List.zipWith (fun o i => o ^^^ f i) x y) y = x := by
  intro x
  induction x with
  | nil => intro y _; simp
  | cons a xs ih =>
    intro y h
    cases y with
    | nil => simp at h
    | cons b ys =>
      simp only [List.zipWith_cons_cons]
      rw [Nat.xor_assoc, Nat.xor_self, Nat.xor_zero, ih ys (by simpa using h)]

theorem sliceXor_cancel (a b : List Nat) (h : b.length = a.length) :
    sliceXor a (sliceXor a b) = b :=
  zipXorF_cancel (fun i => i) b a h

theorem sliceXor_mix :
    ∀ (x y : List Nat), x.length = y.length →
      sliceXor (sliceXor y x) y = x := by
  intro x
  induction x with
  | nil => intro y _; simp [sliceXor]
  | cons a xs ih =>
    intro y h
    cases y with
    | nil => simp at h
    | cons b ys =>
      simp only [sliceXor, List.zipWith_cons_cons] at ih ⊢
      rw [ih ys (by simpa using h)]
      congr 1
      rw [Nat.xor_comm a b, ← Nat.xor_assoc, Nat.xor_self, Nat.zero_xor]

theorem mulAdd8_cancel (t : Nat) (x y : List Nat) (h : x.length = y.length) :
    mulAdd8 (mulAdd8 x y t) y t = x :=
  zipXorF_cancel (mulLog8 t) x y h

theorem refMulAdd_cancel (t : Nat) (x y : List Nat) (h : x.length = y.length) :
    refMulAdd (refMulAdd x y t) y t = x :=
  zipXorF_cancel (mulLog16 t) x y h

theorem mulAdd8_length (x y : List Nat) (t : Nat) (h : x.length = y.length) :
    (mulAdd8 x y t).length = y.length := by
  simp [mulAdd8, h]

theorem refMulAdd_length (x y : List Nat) (t : Nat) (h : x.length = y.length) :
    (refMulAdd x y t).length = y.length := by
  simp [refMulAdd, h]

/-- Claim C4: for shard slices `x, y` of equal length and a log-twiddle `t`
different from `MODULUS`, the forward radix-2 butterfly performs the
multiply-accumulate and then the pair XOR, the inverse butterfly performs the
same two steps in the opposite order, and the inverse undoes the forward
butterfly, in both the 8-bit (`fftDIT28`/`ifftDIT28`) and the 16-bit
(`fftDIT2`/`ifftDIT2`) dispatch variants. -/
theorem ifftDIT2_undoes_fftDIT2 (x y : List Nat) (t : Nat)
    (hlen : x.length = y.length) (h8 : t ≠ modulus8) (h16 : t ≠ modulus16) :
    ifftDIT28 (fftDIT28 x y t).1 (fftDIT28 x y t).2 t = (x, y) ∧
    ifftDIT2 (fftDIT2 x y t).1 (fftDIT2 x y t).2 t = (x, y) := by
  constructor
  · have hx1 : y.length = (mulAdd8 x y t).length := (mulAdd8_length x y t hlen).symm
    simp only [fftDIT28, ifftDIT28]
    rw [sliceXor_cancel _ _ hx1, mulAdd8_cancel t x y hlen]
  · have hx1 : y.length = (refMulAdd x y t).length := (refMulAdd_length x y t hlen).symm
    simp only [fftDIT2, ifftDIT2]
    rw [sliceXor_cancel _ _ hx1, refMulAdd_cancel t x y hlen]

/-- Claim C4 witness: the theorem instantiated at `x = [1]`, `y = [2]`,
`t = 3`. -/
theorem ifftDIT2_undoes_fftDIT2_w :
    ([1] : List Nat).length = [2].length ∧ (3 : Nat) ≠ modulus8 ∧ (3 : Nat) ≠ modulus16 ∧
    (ifftDIT28 (fftDIT28 [1] [2] 3).1 (fftDIT28 [1] [2] 3).2 3 = ([1], [2]) ∧
     ifftDIT2 (fftDIT2 [1] [2] 3).1 (fftDIT2 [1] [2] 3).2 3 = ([1], [2])) :=
  ⟨by decide, by decide, by decide,
   ifftDIT2_undoes_fftDIT2 [1] [2] 3 (by decide) (by decide) (by decide)⟩

/-- Claim C3 (amended): each log-twiddle equal to `MODULUS` short-circuits
its multiply to a plain XOR in the radix-4 reference butterfly, which
branches on the sentinel before dispatching; the radix-2 entry points
(`fftDIT28` and the 16-bit `fftDIT2`) do not branch on the sentinel — they
run the multiply-accumulate unconditionally (at `MODULUS` a multiply by
one), so both slices of the pair are modified rather than degrading to a
plain XOR. -/
theorem butterfly_modulus_paths (w0 w1 w2 w3 : List Nat) :
    fftDIT4Ref8 w0 w1 w2 w3 modulus8 modulus8 modulus8 =
      ((w0, sliceXor w0 w1),
       (sliceXor w0 w2, sliceXor (sliceXor w0 w2) (sliceXor w1 w3))) ∧
    (∀ x y : List Nat, x.length = y.length →
      fftDIT28 x y modulus8 = (sliceXor y x, x) ∧
      fftDIT2 x y modulus16 = (sliceXor y x, x)) := by
  constructor
  · simp [fftDIT4Ref8]
  · intro x y h
    have h8 : mulAdd8 x y modulus8 = sliceXor y x := by
      simp [mulAdd8, mulLog8, sliceXor]
    have h16 : refMulAdd x y modulus16 = sliceXor y x := by
      simp [refMulAdd, mulLog16, sliceXor]
    constructor
    · simp only [fftDIT28, h8]
      rw [show sliceXor (sliceXor y x) y = x from sliceXor_mix x y h]
    · simp only [fftDIT2, h16]
      rw [show sliceXor (sliceXor y x) y = x from sliceXor_mix x y h]

/-- Claim C3 witness: the amended theorem instantiated at `x = [1]`,
`y = [2]`. -/
theorem butterfly_modulus_paths_w :
    ([1] : List Nat).length = [2].length ∧
    (fftDIT28 [1] [2] modulus8 = (sliceXor [2] [1], [1]) ∧
     fftDIT2 [1] [2] modulus16 = (sliceXor [2] [1], [1])) :=
  ⟨by decide, (butterfly_modulus_paths [] [] [] []).2 [1] [2] (by decide)⟩

/-- Claim C3 counterexample: at `x = [1]`, `y = [2]`, the radix-2 butterfly
`fftDIT28` invoked with the `MODULUS` log-twiddle does not degrade to a
plain XOR of the paired slices (in either orientation): it returns
`([3], [1])`, modifying both slices. -/
theorem fftDIT28_modulus_not_plain_xor :
    fftDIT28 [1] [2] modulus8 ≠ (sliceXor [2] [1], [2]) ∧
    fftDIT28 [1] [2] modulus8 ≠ ([1], sliceXor [1] [2]) := by
  decide

/-- Claim C8: `New` returns `InvalidShardNum` exactly for non-positive
shard counts; otherwise it selects the GF(2^8) backend when `k + m ≤ 256`,
the GF(2^16) backend when `256 < k + m ≤ 65536`, and fails with
`MaxShardNum` when `k + m > 65536`. -/
theorem NewCodec_selects (k m : Int) :
    (NewCodec k m = .error .invShardNum ↔ k ≤ 0 ∨ m ≤ 0) ∧
    (0 < k → 0 < m →
      (k + m ≤ 256 → NewCodec k m = .ok .ff8) ∧
      (256 < k + m → k + m ≤ 65536 → NewCodec k m = .ok .ff16) ∧
      (65536 < k + m → NewCodec k m = .error .maxShardNum)) := by
  unfold NewCodec newFF8 newFF16
  constructor
  · by_cases h : k ≤ 0 ∨ m ≤ 0
    · simp [h]
    · simp only [if_neg h]
      have : ¬ (k ≤ 0 ∨ m ≤ 0) := h
      split_ifs with h1 h2 h3 <;> simp_all <;> omega
  · intro hk hm
    have h : ¬ (k ≤ 0 ∨ m ≤ 0) := by omega
    refine ⟨fun h1 => ?_, fun h1 h2 => ?_, fun h1 => ?_⟩
    · simp [h, h1]
    · rw [if_neg h, if_neg (by omega), if_neg h, if_neg (by omega)]
    · rw [if_neg h, if_neg (by omega), if_neg h, if_pos (by omega)]

/-- Claim C8 witness: the theorem instantiated at `(k, m) = (2, 1)`. -/
theorem NewCodec_selects_w : NewCodec 2 1 = .ok .ff8 :=
  ((NewCodec_selects 2 1).2 (by decide) (by decide)).1 (by decide)

/-- Claim C9: the bridge `GaloisMultiply` coincides with `GaloisAdd`
(bitwise XOR) — so it is not a field product and `GaloisMultiply a a = 0`
for every byte — and `GaloisDivide a b` returns `a` unchanged for every
non-zero `b`. -/
theorem GaloisMultiply_is_xor (a b : Nat) :
    GaloisMultiply a b = GaloisAdd a b ∧ GaloisMultiply a a = 0 ∧
    (b ≠ 0 → GaloisDivide a b = some a) := by
  refine ⟨rfl, by simp [GaloisMultiply, Nat.xor_self], fun h => ?_⟩
  simp [GaloisDivide, h]

/-- Claim C9 witness: the theorem instantiated at `a = 3`, `b = 5`. -/
theorem GaloisMultiply_is_xor_w :
    GaloisMultiply 3 5 = GaloisAdd 3 5 ∧ GaloisMultiply 3 3 = 0 ∧
    GaloisDivide 3 5 = some 3 :=
  ⟨(GaloisMultiply_is_xor 3 5).1, (GaloisMultiply_is_xor 3 5).2.1,
   (GaloisMultiply_is_xor 3 5).2.2 (by decide)⟩

/-! ## The streaming adaptor (`streaming8.go`)

A reader is the list of bytes it will still deliver; `io.ReadFull(r, buf[:t])`
on a pure reader delivers `min t |r|` bytes (`take t`) and leaves `drop t`;
an error other than `io.EOF` / `io.ErrUnexpectedEOF` cannot occur.  The
in-memory codec (`leopardFF8`, absent from `src/`) is a parameter of the
loop models: the loops are settled independently of it. -/

/-- A Go call result: a value, an error value, or a runtime panic. -/
inductive Outcome (α : Type) where
  | ok : α → Outcome α
  | err : RSErr → Outcome α
  | panic : Outcome α
  deriving DecidableEq, Repr

/-- One `io.ReadFull(reader, dst[i][:blockSize])`: the block read and the
rest of the stream.  A nil reader contributes `dst[i][:0]`. -/
def readBlock (B : Nat) (r : Option (List Nat)) : List Nat × Option (List Nat) :=
  match r with
  | none => ([], none)
  | some s => (s.take B, some (s.drop B))

/-- `size` determination: the first block read with `n > 0` sets the
per-iteration size (`if size == -1 && n > 0 { size = n }`). -/
def firstSize (blocks : List (List Nat)) : Option Nat :=
  blocks.findSome? (fun b => if b.length = 0 then none else some b.length)

/-- The three-branch uniformization of one block to `size`
(`currentSize == 0` / `< size` / `> size`, `streaming8.go` 277-296). -/
def adjustBlock (size : Nat) (b : List Nat) : List Nat :=
  if b.length = 0 then List.replicate size 0
  else if b.length < size then b ++ List.replicate (size - b.length) 0
  else if size < b.length then b.take size
  else b

/-- The clean form of `adjustBlock`: trim to `size` and zero-extend. -/
def fitTo (size : Nat) (b : List Nat) : List Nat :=
  b.take size ++ List.replicate (size - b.length) 0

/-- 64-byte alignment padding in `readInputs` (`streaming8.go` 299-313):
only blocks whose length equals `size` are extended. -/
def padBlocksEq (size : Nat) (blocks : List (List Nat)) : List (List Nat) :=
  if size % 64 = 0 then blocks
  else blocks.map fun b =>
    if b.length = size then b ++ List.replicate (alignUp64 size - size) 0 else b

/-- 64-byte alignment padding in `verify`/`reconstruct`
(`streaming8.go` 416-436 / 534-554): blocks with `len > 0` are extended. -/
def padBlocksPos (size : Nat) (blocks : List (List Nat)) : List (List Nat) :=
  if size % 64 = 0 then blocks
  else blocks.map fun b =>
    if b.length ≠ 0 then b ++ List.replicate (alignUp64 size - size) 0 else b

/-- `rsStreamFF8.readInputs` (`streaming8.go` 242-316): read one block from
every data reader, fix `size` from the first non-empty read, return `io.EOF`
(`Except.error ()`) if no reader produced bytes, else uniformize all blocks
to `size` and pad to the 64-byte alignment. -/
def readInputs8 (B : Nat) (readers : List (Option (List Nat))) :
    Except Unit (List (List Nat) × Nat × List (Option (List Nat))) :=
  let rd := readers.map (readBlock B)
  let blocks := rd.map Prod.fst
  let rest := rd.map Prod.snd
  match firstSize blocks with
  | none => .error ()
  | some size => .ok (padBlocksEq size (blocks.map (adjustBlock size)), size, rest)

/-- `rsStreamFF8.writeOutputs` (`streaming8.go` 319-340): write
`src[i][:alignedSize]` to every non-nil parity writer.  (In context the rows
have length `alignedSize`, so the Go reslice never exceeds the row.) -/
def writeOutputs8 (writers : List (Option (List Nat))) (src : List (List Nat)) (size : Nat) :
    List (Option (List Nat)) :=
  (writers.zip src).map fun p => p.1.map (fun acc => acc ++ p.2.take (alignUp64 size))

/-- The output writes of `rsStreamFF8.reconstruct` (`streaming8.go` 586-604):
`writeSize` is `size` for data positions and `alignedSize` for parity
positions (`i >= r.dataShards`). -/
def reconstructWrites8 (dataShards size aligned : Nat)
    (outputs : List (Option (List Nat))) (rows : List (List Nat)) :
    List (Option (List Nat)) :=
  ((outputs.zip rows).enum).map fun p =>
    p.2.1.map fun acc =>
      acc ++ p.2.2.take (if p.1 < dataShards then size else aligned)

/-- `rsStreamFF8.encode` (`streaming8.go` 109-181), with the in-memory
`leopardFF8.Encode` as the parameter `enc` (it receives the full shard
array: the uniformized data blocks followed by the parity work rows, all
extended to `alignedSize`; the pool rows' stale contents are modelled as
empty rows before extension).  Fueled loop; fuel is never exhausted in the
theorems below. -/
def encode8 (enc : List (List Nat) → Except RSErr (List (List Nat)))
    (dataShards parityShards B : Nat) :
    Nat → List (Option (List Nat)) → List (Option (List Nat)) →
    Outcome (List (Option (List Nat)))
  | 0, _, _ => .panic
  | fuel + 1, inputs, outputs =>
    if inputs.length ≠ dataShards then .err .tooFewShards
    else if outputs.length ≠ parityShards then .err .tooFewShards
    else
      match readInputs8 B inputs with
      | .error _ => .ok outputs
      | .ok (blocks, size, rest) =>
        if blocks.any (fun b => b.length != 0) then
          let alignedSize := ((size + 63) / 64) * 64
          let shards := (blocks ++ List.replicate parityShards ([] : List Nat)).map fun b =>
            if b.length < alignedSize then b ++ List.replicate (alignedSize - b.length) 0
            else b.take alignedSize
          match enc shards with
          | .error e => .err e
          | .ok encoded =>
            encode8 enc dataShards parityShards B fuel rest
              (writeOutputs8 outputs (encoded.drop dataShards) size)
        else .err .shardNoData

/-- The loop of `rsStreamFF8.verify` (`streaming8.go` 352-443), with the
in-memory `Verify` as parameter. -/
def verify8 (ver : List (List Nat) → Except RSErr Bool) (B : Nat) :
    Nat → List (Option (List Nat)) → Nat → Outcome Bool
  | 0, _, _ => .panic
  | fuel + 1, shards, read =>
    let rd := shards.map (readBlock B)
    let blocks := rd.map Prod.fst
    let rest := rd.map Prod.snd
    match firstSize blocks with
    | none => if read = 0 then .err .shardNoData else .ok true
    | some size =>
      let all := padBlocksPos size (blocks.map (adjustBlock size))
      match ver all with
      | .error e => .err e
      | .ok false => .ok false
      | .ok true => verify8 ver B fuel rest (read + size)

/-- `rsStreamFF8.verify` entry (`streaming8.go` 343-350): shard-count check,
then the loop with `read = 0`. -/
def verify8top (ver : List (List Nat) → Except RSErr Bool)
    (totalShards B fuel : Nat) (shards : List (Option (List Nat))) : Outcome Bool :=
  if shards.length ≠ totalShards then .err .tooFewShards
  else verify8 ver B fuel shards 0

/-- The loop of `rsStreamFF8.reconstruct` (`streaming8.go` 469-606), with the
selected in-memory reconstruction as parameter `rec`.  The extra
uniformization of lines 559-573 is a no-op after padding but is kept. -/
def reconstructLoop8 (rec : List (List Nat) → Except RSErr (List (List Nat)))
    (dataShards B : Nat) :
    Nat → List (Option (List Nat)) → List (Option (List Nat)) → Nat →
    Outcome (List (Option (List Nat)))
  | 0, _, _, _ => .panic
  | fuel + 1, inputs, outputs, read =>
    let rd := inputs.map (readBlock B)
    let blocks := rd.map Prod.fst
    let rest := rd.map Prod.snd
    match firstSize blocks with
    | none => if read = 0 then .err .shardNoData else .ok outputs
    | some size =>
      let aligned := alignUp64 size
      let all := padBlocksPos size (blocks.map (adjustBlock size))
      let all2 := all.map fun b =>
        if b.length ≠ aligned ∧ b.length ≠ 0 then
          b.take aligned ++ List.replicate (aligned - b.length) 0
        else b
      match rec all2 with
      | .error e => .err e
      | .ok rows =>
        reconstructLoop8 rec dataShards B fuel rest
          (reconstructWrites8 dataShards size aligned outputs rows) (read + size)

/-- `rsStreamFF8.reconstruct` (`streaming8.go` 447-467 and loop): length
checks, then the input/output aliasing check, then `reconDataOnly`
dispatch, before any stream is read. -/
def reconstruct8 (recFull recData : List (List Nat) → Except RSErr (List (List Nat)))
    (dataShards totalShards B fuel : Nat)
    (inputs outputs : List (Option (List Nat))) : Outcome (List (Option (List Nat))) :=
  if inputs.length ≠ totalShards then .err .tooFewShards
  else if outputs.length ≠ totalShards then .err .tooFewShards
  else if (inputs.zip outputs).any (fun p => p.1.isSome && p.2.isSome) then
    .err .reconstructMismatch
  else if !((outputs.drop dataShards).any Option.isSome) then
    reconstructLoop8 recData dataShards B fuel inputs outputs 0
  else
    reconstructLoop8 recFull dataShards B fuel inputs outputs 0

/-- The loop of `rsStreamFF8.reconstructData` (`streaming8.go` 635-765):
blocks at positions marked missing are skipped by the uniformization and the
padding and stay empty; only data outputs are written, `size` bytes each. -/
def reconstructDataLoop8 (recData : List (List Nat) → Except RSErr (List (List Nat)))
    (dataShards B : Nat) (missing : List Bool) :
    Nat → List (Option (List Nat)) → List (Option (List Nat)) → Nat →
    Outcome (List (Option (List Nat)))
  | 0, _, _, _ => .panic
  | fuel + 1, inputs, outputs, read =>
    let rd := inputs.map (readBlock B)
    let blocks := rd.map Prod.fst
    let rest := rd.map Prod.snd
    match firstSize blocks with
    | none => if read = 0 then .err .shardNoData else .ok outputs
    | some size =>
      let adjusted := (blocks.zip missing).map fun p =>
        if p.2 then p.1 else adjustBlock size p.1
      let all :=
        if size % 64 = 0 then adjusted
        else (adjusted.zip missing).map fun p =>
          if p.2 then p.1
          else if p.1.length ≠ 0 then p.1 ++ List.replicate (alignUp64 size - size) 0
          else p.1
      match recData all with
      | .error e => .err e
      | .ok rows =>
        let outputs2 := ((outputs.zip rows).enum).map fun p =>
          match p.2.1 with
          | none => none
          | some acc =>
            if p.1 < dataShards then some (acc ++ p.2.2.take size) else p.2.1
        reconstructDataLoop8 recData dataShards B missing fuel rest outputs2 (read + size)

/-- `rsStreamFF8.reconstructData` (`streaming8.go` 609-633 and loop):
length checks, aliasing check, the missing-shard mask (data positions with a
nil input and a non-nil output), then the loop. -/
def reconstructData8 (recData : List (List Nat) → Except RSErr (List (List Nat)))
    (dataShards totalShards B fuel : Nat)
    (inputs outputs : List (Option (List Nat))) : Outcome (List (Option (List Nat))) :=
  if inputs.length ≠ totalShards then .err .tooFewShards
  else if outputs.length ≠ totalShards then .err .tooFewShards
  else if (inputs.zip outputs).any (fun p => p.1.isSome && p.2.isSome) then
    .err .reconstructMismatch
  else
    let missing := ((inputs.zip outputs).enum).map fun p =>
      decide (p.1 < dataShards) && p.2.1.isNone && p.2.2.isSome
    reconstructDataLoop8 recData dataShards B missing fuel inputs outputs 0

/-- `rsFF8.StreamReconstruct` (`reedsolomon.go` 156-189): length checks,
aliasing check before the stream encoder is created, `onlyData`
determination, then delegation. -/
def streamReconstruct8 (recFull recData : List (List Nat) → Except RSErr (List (List Nat)))
    (dataShards parityShards B fuel : Nat)
    (inputs outputs : List (Option (List Nat))) : Outcome (List (Option (List Nat))) :=
  if inputs.length ≠ dataShards + parityShards ∨ outputs.length ≠ dataShards + parityShards then
    .err .tooFewShards
  else if (inputs.zip outputs).any (fun p => p.1.isSome && p.2.isSome) then
    .err .reconstructMismatch
  else if dataShards = 0 ∨ parityShards = 0 then .err .invShardNum
  else if !((outputs.drop dataShards).any Option.isSome) then
    reconstructData8 recData dataShards (dataShards + parityShards) B fuel inputs outputs
  else
    reconstruct8 recFull recData dataShards (dataShards + parityShards) B fuel inputs outputs

/-- `rsFF8.StreamReconstructData` (`reedsolomon.go` 191-202): copy
`outputs[0 .. dataShards-1]` into a fresh writer slice (unconditional
indexing — a panic when `outputs` is shorter), then delegate to
`StreamReconstruct`. -/
def streamReconstructData8 (recFull recData : List (List Nat) → Except RSErr (List (List Nat)))
    (dataShards parityShards B fuel : Nat)
    (inputs outputs : List (Option (List Nat))) : Outcome (List (Option (List Nat))) :=
  match copyDataOutputs dataShards (dataShards + parityShards) outputs with
  | none => .panic
  | some dataOnly =>
    streamReconstruct8 recFull recData dataShards parityShards B fuel inputs dataOnly

/-! ### Helper lemmas about blocks and list indexing -/

theorem adjustBlock_eq_fitTo (s : Nat) (b : List Nat) : adjustBlock s b = fitTo s b := by
  unfold adjustBlock fitTo
  by_cases h0 : b.length = 0
  · have hb : b = [] := List.eq_nil_of_length_eq_zero h0
    subst hb; simp
  · by_cases h1 : b.length < s
    · rw [if_neg h0, if_pos h1, List.take_of_length_le (by omega)]
    · by_cases h2 : s < b.length
      · rw [if_neg h0, if_neg h1, if_pos h2]
        have hz : s - b.length = 0 := by omega
        rw [hz]; simp
      · have hb : s = b.length := by omega
        rw [if_neg h0, if_neg h1, if_neg h2, hb]
        simp [List.take_length]

theorem fitTo_length (s : Nat) (b : List Nat) : (fitTo s b).length = s := by
  simp [fitTo]; omega

theorem padBlocksEq_uniform (s : Nat) (blocks : List (List Nat))
    (h : ∀ b ∈ blocks, b.length = s) :
    padBlocksEq s blocks = blocks.map (fun b => b ++ List.replicate (alignUp64 s - s) 0) := by
  unfold padBlocksEq
  by_cases h64 : s % 64 = 0
  · rw [if_pos h64]
    have ha : alignUp64 s = s := by unfold alignUp64; rw [if_pos h64]
    rw [ha, Nat.sub_self]
    simp
  · rw [if_neg h64]
    exact List.map_congr_left (fun b hb => by rw [if_pos (h b hb)])

theorem enumFrom_snd_mem {α : Type} :
    ∀ (l : List α) (n : Nat) (p : Nat × α), p ∈ List.enumFrom n l → p.2 ∈ l := by
  intro l
  induction l with
  | nil => intro n p h; simp [List.enumFrom] at h
  | cons a as ih =>
    intro n p h
    simp only [List.enumFrom, List.mem_cons] at h
    rcases h with h | h
    · subst h; simp
    · exact List.mem_cons_of_mem _ (ih (n + 1) p h)

theorem zip_get?_eq {α β : Type} :
    ∀ (l1 : List α) (l2 : List β) (i : Nat) (a : α) (b : β),
      l1.get? i = some a → l2.get? i = some b → (l1.zip l2).get? i = some (a, b) := by
  intro l1
  induction l1 with
  | nil => intro l2 i a b h _; simp at h
  | cons x xs ih =>
    intro l2 i a b h1 h2
    cases l2 with
    | nil => simp at h2
    | cons y ys =>
      cases i with
      | zero =>
        simp only [List.get?_cons_zero, Option.some.injEq] at h1 h2
        simp [List.zip_cons_cons, h1, h2]
      | succ n =>
        simp only [List.get?_cons_succ] at h1 h2
        simpa [List.zip_cons_cons] using ih ys n a b h1 h2

theorem mismatch_any_true (inputs outputs : List (Option (List Nat)))
    (h : ∃ i x y, inputs.get? i = some (some x) ∧ outputs.get? i = some (some y)) :
    (inputs.zip outputs).any (fun p => p.1.isSome && p.2.isSome) = true := by
  obtain ⟨i, x, y, h1, h2⟩ := h
  have hz := zip_get?_eq inputs outputs i _ _ h1 h2
  have hmem : (some x, some y) ∈ inputs.zip outputs := List.get?_mem hz
  rw [List.any_eq_true]
  exact ⟨_, hmem, by simp⟩

/-- Claim C5: in a stream-operation iteration, once the first non-empty read
fixes the per-iteration size `s`, `readInputs` zero-extends every shorter
present block to `s`, trims longer ones to `s`, and zero-pads every block to
the 64-byte-aligned `s_padded = alignUp64 s` (so every block handed to the
in-memory codec has length `s_padded`); `writeOutputs` then writes exactly
`s_padded` bytes to each present parity writer, and the `reconstruct` output
stage writes exactly `s` bytes to data writers and `s_padded` bytes to
parity writers. -/
theorem stream_padding_contract (B : Nat) (readers : List (Option (List Nat))) (s : Nat)
    (hs : firstSize ((readers.map (readBlock B)).map Prod.fst) = some s) :
    readInputs8 B readers =
      .ok (readers.map
             (fun r => fitTo s (readBlock B r).1 ++ List.replicate (alignUp64 s - s) 0),
           s,
           readers.map (fun r => (readBlock B r).2)) ∧
    (∀ r : Option (List Nat),
      (fitTo s (readBlock B r).1 ++ List.replicate (alignUp64 s - s) 0).length
        = alignUp64 s) ∧
    (∀ (writers : List (Option (List Nat))) (rows : List (List Nat)),
      (∀ row ∈ rows, row.length = alignUp64 s) →
      writeOutputs8 writers rows s =
        (writers.zip rows).map (fun p => p.1.map (fun acc => acc ++ p.2))) ∧
    (∀ (dataShards : Nat) (outputs : List (Option (List Nat))) (rows : List (List Nat)),
      (∀ row ∈ rows, row.length = alignUp64 s) →
      reconstructWrites8 dataShards s (alignUp64 s) outputs rows =
        ((outputs.zip rows).enum).map
          (fun p => p.2.1.map (fun acc =>
            acc ++ (if p.1 < dataShards then p.2.2.take s else p.2.2)))) ∧
    (∀ row : List Nat, row.length = alignUp64 s → (row.take s).length = s) := by
  refine ⟨?_, ?_, ?_, ?_, ?_⟩
  · have hadj : (((readers.map (readBlock B)).map Prod.fst).map (adjustBlock s))
        = readers.map (fun r => fitTo s (readBlock B r).1) := by
      rw [List.map_map, List.map_map]
      exact List.map_congr_left (fun r _ => by
        simp [Function.comp, adjustBlock_eq_fitTo])
    simp only [readInputs8, hs]
    rw [hadj]
    rw [padBlocksEq_uniform s _ (by
      intro b hb
      obtain ⟨r, _, rfl⟩ := List.mem_map.mp hb
      exact fitTo_length s _)]
    rw [List.map_map, List.map_map]
    rfl
  · intro r
    have := fitTo_length s (readBlock B r).1
    have := le_alignUp64 s
    simp only [List.length_append, List.length_replicate]
    omega
  · intro writers rows hrows
    unfold writeOutputs8
    refine List.map_congr_left (fun p hp => ?_)
    have hmem : p.2 ∈ rows := (List.of_mem_zip hp).2
    rw [show p.2.take (alignUp64 s) = p.2 by
      rw [← hrows p.2 hmem]; exact List.take_length p.2]
  · intro dataShards outputs rows hrows
    unfold reconstructWrites8
    refine List.map_congr_left (fun p hp => ?_)
    have hmem : p.2.2 ∈ rows :=
      (List.of_mem_zip (enumFrom_snd_mem _ 0 p hp)).2
    by_cases hi : p.1 < dataShards
    · rw [if_pos hi, if_pos hi]
    · rw [if_neg hi, if_neg hi]
      rw [show p.2.2.take (alignUp64 s) = p.2.2 by
        rw [← hrows p.2.2 hmem]; exact List.take_length p.2.2]
  · intro row hrow
    rw [List.length_take, hrow]
    exact Nat.min_eq_left (le_alignUp64 s)

/-- Claim C5 witness: the theorem instantiated at `readers = [some [5], none]`,
`B = 4` (so `s = 1`). -/
theorem stream_padding_contract_w :
    firstSize (([some [5], none].map (readBlock 4)).map Prod.fst) = some 1 ∧
    (∀ row : List Nat, row.length = alignUp64 1 → (row.take 1).length = 1) :=
  ⟨rfl, (stream_padding_contract 4 [some [5], none] 1 rfl).2.2.2.2⟩

/-- Claim C6 (divergence of the code at the failing input): with every data
reader immediately at EOF with zero bytes read, the stream `encode` loop
returns success (`nil` error) instead of `ShardNoData`, while the stream
`verify` loop at the same kind of input does return `ShardNoData`. -/
theorem stream_encode_empty_inputs (B fuel : Nat)
    (enc : List (List Nat) → Except RSErr (List (List Nat)))
    (ver : List (List Nat) → Except RSErr Bool) :
    encode8 enc 2 1 B (fuel + 1) [some [], some []] [some []] = .ok [some []] ∧
    verify8top ver 3 B (fuel + 1) [some [], some [], some []] = .err .shardNoData := by
  constructor
  · simp [encode8, readInputs8, readBlock, firstSize]
  · simp [verify8top, verify8, readBlock, firstSize]

/-- Claim C7: a stream-reconstruction call in which some shard slot carries
both a non-nil input reader and a non-nil output writer fails with
`ReconstructMismatch` — the check precedes every stream read both in the
`StreamReconstruct` façade and in the internal `reconstruct` /
`reconstructData` loops. -/
theorem stream_reconstruct_mismatch
    (recFull recData : List (List Nat) → Except RSErr (List (List Nat)))
    (dataShards parityShards B fuel : Nat)
    (inputs outputs : List (Option (List Nat)))
    (hin : inputs.length = dataShards + parityShards)
    (hout : outputs.length = dataShards + parityShards)
    (h : ∃ i x y, inputs.get? i = some (some x) ∧ outputs.get? i = some (some y)) :
    streamReconstruct8 recFull recData dataShards parityShards B fuel inputs outputs
      = .err .reconstructMismatch ∧
    reconstruct8 recFull recData dataShards (dataShards + parityShards) B fuel
      inputs outputs = .err .reconstructMismatch ∧
    reconstructData8 recData dataShards (dataShards + parityShards) B fuel
      inputs outputs = .err .reconstructMismatch := by
  have hany := mismatch_any_true inputs outputs h
  refine ⟨?_, ?_, ?_⟩
  · simp [streamReconstruct8, hin, hout, hany]
  · simp [reconstruct8, hin, hout, hany]
  · simp [reconstructData8, hin, hout, hany]

/-- Claim C7 witness: the theorem instantiated at `(k, m) = (2, 1)` with
shard slot 0 present as both input and output. -/
theorem stream_reconstruct_mismatch_w :
    streamReconstruct8 (fun s => .ok s) (fun s => .ok s) 2 1 0 0
      [some [], none, none] [some [], none, none] = .err .reconstructMismatch :=
  (stream_reconstruct_mismatch (fun s => .ok s) (fun s => .ok s) 2 1 0 0
    [some [], none, none] [some [], none, none] rfl rfl
    ⟨0, [], [], rfl, rfl⟩).1

/-- Claim C10: `StreamReconstructData` copies `outputs[0 .. k-1]`
unconditionally before delegating to `StreamReconstruct`: under
`len(outputs) ≥ k` the indexing is total and the call reduces to
`StreamReconstruct` on the data-only writer slice; for `len(outputs) < k`
the call panics, and no error value is returned on that path. -/
theorem streamReconstructData_indexing
    (recFull recData : List (List Nat) → Except RSErr (List (List Nat)))
    (dataShards parityShards B fuel : Nat)
    (inputs outputs : List (Option (List Nat))) :
    (dataShards ≤ outputs.length →
      streamReconstructData8 recFull recData dataShards parityShards B fuel inputs outputs
        = streamReconstruct8 recFull recData dataShards parityShards B fuel inputs
            (outputs.take dataShards ++
              List.replicate (dataShards + parityShards - dataShards) none)) ∧
    (outputs.length < dataShards →
      streamReconstructData8 recFull recData dataShards parityShards B fuel inputs outputs
        = .panic ∧
      ∀ e : RSErr,
        streamReconstructData8 recFull recData dataShards parityShards B fuel inputs outputs
          ≠ .err e) := by
  constructor
  · intro h
    simp [streamReconstructData8, copyDataOutputs, h]
  · intro h
    have h2 : ¬ dataShards ≤ outputs.length := by omega
    refine ⟨by simp [streamReconstructData8, copyDataOutputs, h2], fun e => ?_⟩
    simp [streamReconstructData8, copyDataOutputs, h2]

/-- Claim C10 witness: the theorem instantiated at `(k, m) = (2, 1)` with a
single-element `outputs` slice: the call panics. -/
theorem streamReconstructData_indexing_w :
    ([some ([] : List Nat)] : List (Option (List Nat))).length < 2 ∧
    streamReconstructData8 (fun s => .ok s) (fun s => .ok s) 2 1 0 0
      [none, none, none] [some []] = .panic :=
  ⟨by decide,
   ((streamReconstructData_indexing (fun s => .ok s) (fun s => .ok s) 2 1 0 0
      [none, none, none] [some []]).2 (by decide)).1⟩

/-! ## `Split` and `Join` (C1, C2) — `streaming8.go` 769-877 and 1003-1310 -/

/-- The per-shard loop of `rsStreamFF8.split` (`streaming8.go` 827-874),
recursing on the number of shards still to produce; the shard produced when
the count is `1` is the last one (`shardNum == r.dataShards-1`).  `s` is the
remaining input stream, `t` the `totalRead` counter.  `io.ReadFull` on
`buf[:actualDataSize]` returns `io.EOF` exactly when the stream is empty and
the request is non-empty; a partial read (`io.ErrUnexpectedEOF`) is
accepted.  On `io.EOF` with `totalRead < size` the call fails with
`ShortData`; on `io.EOF` with `totalRead ≥ size` all remaining shards are
zero-filled with the current `bytesToRead`. -/
def splitLoop (P L AL size : Nat) : Nat → List Nat → Nat → Except RSErr (List (List Nat))
  | 0, _, _ => .ok []
  | r + 1, s, t =>
    let bytesToRead := if r = 0 then AL else P
    let actualDataSize := if r = 0 then L else P
    if s.length = 0 ∧ 0 < actualDataSize then
      if t < size then .error .shortData
      else .ok (List.replicate (r + 1) (List.replicate bytesToRead 0))
    else
      let n := min actualDataSize s.length
      match splitLoop P L AL size r (s.drop n) (t + n) with
      | .error e => .error e
      | .ok rest => .ok ((s.take n ++ List.replicate (bytesToRead - n) 0) :: rest)

/-- The per-shard byte budget of `split`: the 64-aligned `size`, divided by
`dataShards` (integer division), rounded up to 64 (`streaming8.go` 779-791). -/
def perShardFF8 (dataShards size : Nat) : Nat :=
  alignUp64 (alignUp64 size / dataShards)

/-- `rsStreamFF8.split` (`streaming8.go` 769-877).  `size ≤ 0` is
`ShortData`; `perShard` and `lastShardSize` are computed as in the source,
with the adjustment branch when `size - perShard·(k-1)` is non-positive
(whose tests are expressed on `Nat` as `≤` comparisons). -/
def split8 (dataShards size : Nat) (data : List Nat) : Except RSErr (List (List Nat)) :=
  if size = 0 then .error .shortData
  else
    let perShard1 := perShardFF8 dataShards size
    let p :=
      if size ≤ perShard1 * (dataShards - 1) then
        alignUp64 ((size - 1) / (dataShards - 1))
      else perShard1
    let lastShardSize :=
      if size ≤ p * (dataShards - 1) then 1 else size - p * (dataShards - 1)
    splitLoop p lastShardSize (alignUp64 lastShardSize) size dataShards data 0

/-- The greedy sequential reads shared by `join`'s two small-data paths
(`streaming8.go` 1019-1035 and 1086-1107): read
`min (outSize - totalRead) |shard|` bytes from each non-nil shard reader in
order (a single `io.ReadFull(shard, buffer[totalRead:])` resp. a single
`shard.Read(buffer[totalWritten:totalWritten+toRead])` on a pure reader),
stopping once the budget is exhausted. -/
def joinGreedyReads : List (Option (List Nat)) → Nat → List Nat
  | [], _ => []
  | none :: rest, budget => joinGreedyReads rest budget
  | some sh :: rest, budget =>
    let n := min budget sh.length
    sh.take n ++ joinGreedyReads rest (budget - n)

/-- The reader-building loop of `joinWithMultiReader` (`streaming8.go`
1152-1173): `LimitReader(shard, perShard)` for every non-nil shard, except
the one at the last index, which gets `outSize - len(readers)·perShard` and
is dropped (`break`) when that is non-positive. -/
def multiReaderParts (perShard outSize lastIdx : Nat) :
    Nat → Nat → List (Option (List Nat)) → List (List Nat)
  | _, _, [] => []
  | i, cnt, none :: rest => multiReaderParts perShard outSize lastIdx (i + 1) cnt rest
  | i, cnt, some sh :: rest =>
    if i = lastIdx then
      if outSize ≤ cnt * perShard then []
      else [sh.take (outSize - cnt * perShard)]
    else sh.take perShard :: multiReaderParts perShard outSize lastIdx (i + 1) (cnt + 1) rest

/-- `rsStreamFF8.joinWithMultiReader` (`streaming8.go` 1143-1189):
concatenate the limited readers and `io.CopyN` exactly `outSize` bytes;
fewer available bytes is `ShortData`. -/
def joinWithMultiReader8 (dataShards : Nat) (shards : List (Option (List Nat)))
    (outSize : Nat) : Except RSErr (List Nat) :=
  let perShard := alignUp64 ((outSize + dataShards - 1) / dataShards)
  let concatenated := (multiReaderParts perShard outSize (shards.length - 1) 0 0 shards).join
  if concatenated.length < outSize then .error .shortData
  else .ok (concatenated.take outSize)

/-- The inner 64-KiB-chunked read loop of `joinWithBufferedReads`
(`streaming8.go` 1229-1270), fueled (each iteration consumes at least one
byte, so `expected + 1` fuel suffices in the callers). -/
def joinBufferedShard (bufSize expected outSize : Nat) :
    Nat → List Nat → Nat → Nat → List Nat
  | 0, _, _, _ => []
  | fuel + 1, s, sbr, tw =>
    if sbr < expected ∧ tw < outSize then
      let toRead0 := min bufSize (expected - sbr)
      let toRead := if outSize < tw + toRead0 then outSize - tw else toRead0
      if toRead = 0 then []
      else
        let n := min toRead s.length
        if n = 0 then []
        else s.take n ++
          joinBufferedShard bufSize expected outSize fuel (s.drop n) (sbr + n) (tw + n)
    else []

/-- The main per-shard loop of `joinWithBufferedReads` (`streaming8.go`
1212-1271): process every non-nil shard up to `perShard` bytes, deferring
the shard at the last index while `totalWritten < outSize`; returns the
written bytes, the final `totalWritten`, and the remaining stream of the
last non-nil shard seen (`lastShard`). -/
def joinBufferedMain (perShard outSize lastIdx bufSize : Nat) :
    List (Option (List Nat)) → Nat → Nat → (List Nat × Nat × Option (List Nat))
  | [], _, tw => ([], tw, none)
  | none :: rest, i, tw => joinBufferedMain perShard outSize lastIdx bufSize rest (i + 1) tw
  | some sh :: rest, i, tw =>
    if i = lastIdx ∧ tw < outSize then
      let r := joinBufferedMain perShard outSize lastIdx bufSize rest (i + 1) tw
      (r.1, r.2.1, some (r.2.2.getD sh))
    else
      let piece := joinBufferedShard bufSize perShard outSize (perShard + 1) sh 0 tw
      let r := joinBufferedMain perShard outSize lastIdx bufSize rest (i + 1)
        (tw + piece.length)
      (piece ++ r.1, r.2.1, some (r.2.2.getD (sh.drop piece.length)))

/-- `rsStreamFF8.joinWithBufferedReads` (`streaming8.go` 1192-1310): the
main loop, then the final drain of `lastShard` up to `outSize`
(`streaming8.go` 1274-1302; on a pure reader the chunked drain delivers
`take (outSize - totalWritten)`), then the `ShortData` check. -/
def joinWithBufferedReads8 (dataShards : Nat) (shards : List (Option (List Nat)))
    (outSize : Nat) : Except RSErr (List Nat) :=
  let perShard := alignUp64 ((outSize + dataShards - 1) / dataShards)
  let r := joinBufferedMain perShard outSize (shards.length - 1) 65536 shards 0 0
  let final :=
    match r.2.2 with
    | none => []
    | some lastS => if r.2.1 < outSize then lastS.take (outSize - r.2.1) else []
  if r.2.1 + final.length < outSize then .error .shortData
  else .ok (r.1 ++ final)

/-- `rsStreamFF8.join` (`streaming8.go` 1003-1140): argument checks, the
tiny-data path (`outSize ≤ dataShards`), trimming a full `n`-stream slice to
its data shards, the valid-shard counts, the small path (`outSize < 1000`),
and the dispatch between the multi-reader path (all readers seekable and
`outSize ≤ 10 MiB`) and the buffered path.  The destination writer is
assumed non-nil (`ErrNilWriter` otherwise). -/
def join8 (dataShards parityShards : Nat) (allSeekable : Bool)
    (shards : List (Option (List Nat))) (outSize : Nat) : Except RSErr (List Nat) :=
  if shards.length = 0 then .error .tooFewShards
  else if outSize = 0 then .error .sizeErr
  else if outSize ≤ dataShards then
    let buffer := joinGreedyReads shards outSize
    if buffer.length < outSize then .error .shortData else .ok buffer
  else
    let shards2 :=
      if shards.length = dataShards + parityShards then shards.take dataShards else shards
    if (shards2.filter Option.isSome).length < dataShards then .error .tooFewShards
    else if (shards2.filter Option.isSome).length = 0 then .error .tooFewShards
    else if outSize < 1000 then
      let buffer := joinGreedyReads shards2 outSize
      if buffer.length < outSize then .error .shortData else .ok buffer
    else if outSize ≤ 10485760 ∧ allSeekable then
      joinWithMultiReader8 dataShards shards2 outSize
    else
      joinWithBufferedReads8 dataShards shards2 outSize

/-- `true` iff an `Except` result is a success. -/
def isOkE {α : Type} : Except RSErr α → Bool
  | .ok _ => true
  | .error _ => false

/-! ### Round-trip lemmas for `split`/`join` -/

theorem joinGreedyReads_zero : ∀ (l : List (Option (List Nat))), joinGreedyReads l 0 = [] := by
  intro l
  induction l with
  | nil => rfl
  | cons x rest ih =>
    cases x with
    | none => simpa [joinGreedyReads] using ih
    | some sh => simp [joinGreedyReads, ih]

/-- Running the split loop on a stream no longer than the total request
`P·(r-1) + L` succeeds, and reading the resulting shards back greedily with
the stream length as budget reproduces the stream. -/
theorem splitLoop_roundtrip (P L AL size : Nat) (hL : 1 ≤ L) (hAL : L ≤ AL) :
    ∀ (r : Nat), 1 ≤ r → ∀ (s : List Nat) (t : Nat), t + s.length = size →
      s.length ≤ P * (r - 1) + L →
      ∃ S, splitLoop P L AL size r s t = .ok S ∧ S.length = r ∧
        joinGreedyReads (S.map some) s.length = s := by
  intro r
  induction r with
  | zero => intro h; omega
  | succ r ih =>
    intro _ s t ht hlen
    rcases Nat.eq_zero_or_pos r with hr | hr
    · subst hr
      by_cases hs : s.length = 0
      · have hsnil : s = [] := List.eq_nil_of_length_eq_zero hs
        subst hsnil
        refine ⟨[List.replicate AL 0], ?_, rfl, by simp [joinGreedyReads]⟩
        simp only [splitLoop]
        rw [if_pos ⟨rfl, by simpa using hL⟩,
          if_neg (by simp only [List.length_nil] at ht; omega)]
        simp
      · have hlen1 : s.length ≤ L := by simpa using hlen
        refine ⟨[s ++ List.replicate (AL - s.length) 0], ?_, rfl, ?_⟩
        · simp only [splitLoop]
          rw [if_neg (by simp [hs])]
          simp [splitLoop, Nat.min_eq_right hlen1, List.take_length]
        · have hAD : (s ++ List.replicate (AL - s.length) 0).length = AL := by
            simp; omega
          simp only [List.map_cons, List.map_nil, joinGreedyReads, hAD]
          rw [Nat.min_eq_left (le_trans hlen1 hAL),
            List.take_append_of_le_length (le_refl s.length), List.take_length]
          simp
    · have hr0 : ¬ (r = 0) := by omega
      have hexp : P * r = P * (r - 1) + P := by
        rcases r with _ | r2
        · omega
        · simp [Nat.mul_succ]
      have hlen2 : s.length ≤ P * (r - 1) + P + L := by
        have h2 : s.length ≤ P * r + L := by simpa using hlen
        omega
      by_cases hP : P = 0
      · -- zero-byte request for this shard: empty shard, stream unchanged
        obtain ⟨S2, hok, hSlen, hjoin⟩ :=
          ih hr s t ht (by subst hP; simpa using hlen2)
        refine ⟨[] :: S2, ?_, by simp [hSlen], ?_⟩
        · subst hP
          simp only [splitLoop, if_neg hr0]
          rw [if_neg (by simp)]
          simp only [Nat.zero_min, List.drop_zero, Nat.add_zero, hok]
          simp
        · simp [joinGreedyReads, hjoin]
      · by_cases hs : s.length = 0
        · have hsnil : s = [] := List.eq_nil_of_length_eq_zero hs
          subst hsnil
          refine ⟨List.replicate (r + 1) (List.replicate P 0), ?_, by simp, ?_⟩
          · simp only [splitLoop]
            rw [if_pos ⟨rfl, by simp [hr0]; omega⟩,
              if_neg (by simp only [List.length_nil] at ht; omega)]
            simp [hr0]
          · simp only [List.length_nil, List.map_replicate]
            rw [joinGreedyReads_zero]
        · -- regular read of n = min P |s| bytes
          have hnP : min P s.length ≤ P := Nat.min_le_left _ _
          have hns : min P s.length ≤ s.length := Nat.min_le_right _ _
          have hchoice : min P s.length = P ∨ min P s.length = s.length :=
            min_choice P s.length
          obtain ⟨S2, hok, hSlen, hjoin⟩ :=
            ih hr (s.drop (min P s.length)) (t + min P s.length)
              (by simp [List.length_drop]; omega)
              (by
                simp only [List.length_drop]
                rcases hchoice with h | h <;> omega)
          refine ⟨(s.take (min P s.length) ++
              List.replicate (P - min P s.length) 0) :: S2, ?_, by simp [hSlen], ?_⟩
          · simp only [splitLoop, if_neg hr0]
            rw [if_neg (by simp [hs])]
            have hn : min (if r = 0 then L else P) s.length = min P s.length := by
              simp [hr0]
            simp only [hn, hok]
          · have hAD : (s.take (min P s.length) ++
                List.replicate (P - min P s.length) 0).length = P := by
              simp only [List.length_append, List.length_take, List.length_replicate]
              omega
            simp only [List.map_cons, joinGreedyReads, hAD]
            have hmin2 : min s.length P = min P s.length := Nat.min_comm _ _
            rw [hmin2]
            have htk : (s.take (min P s.length) ++
                List.replicate (P - min P s.length) 0).take (min P s.length)
                = s.take (min P s.length) := by
              rw [List.take_append_of_le_length (by simp only [List.length_take]; omega)]
              rw [List.take_take, Nat.min_self]
            rw [htk]
            have hbud : s.length - min P s.length = (s.drop (min P s.length)).length := by
              simp [List.length_drop]
            rw [hbud, hjoin, List.take_append_drop]

/-- For every positive `size` and `k ≥ 1`, `split8` is the shard loop for
its computed `perShard` and `lastShardSize`, the latter at least one byte,
and the per-shard requests cover the stream: `size ≤ P·(k-1) + L`. -/
theorem split8_loop_form (k size : Nat) (h0 : 0 < size) :
    ∃ P L, 1 ≤ L ∧ size ≤ P * (k - 1) + L ∧
      ∀ X : List Nat, split8 k size X = splitLoop P L (alignUp64 L) size k X 0 := by
  have hsz : ¬ (size = 0) := by omega
  by_cases h1 : size ≤ perShardFF8 k size * (k - 1)
  · by_cases h2 : size ≤ alignUp64 ((size - 1) / (k - 1)) * (k - 1)
    · refine ⟨alignUp64 ((size - 1) / (k - 1)), 1, le_refl 1, ?_, fun X => ?_⟩
      · generalize alignUp64 ((size - 1) / (k - 1)) * (k - 1) = a at h2 ⊢
        omega
      · simp only [split8, if_neg hsz, if_pos h1, if_pos h2]
    · refine ⟨alignUp64 ((size - 1) / (k - 1)),
        size - alignUp64 ((size - 1) / (k - 1)) * (k - 1), ?_, ?_, fun X => ?_⟩
      · generalize alignUp64 ((size - 1) / (k - 1)) * (k - 1) = a at h2 ⊢
        omega
      · generalize alignUp64 ((size - 1) / (k - 1)) * (k - 1) = a at h2 ⊢
        omega
      · simp only [split8, if_neg hsz, if_pos h1, if_neg h2]
  · refine ⟨perShardFF8 k size, size - perShardFF8 k size * (k - 1), ?_, ?_, fun X => ?_⟩
    · generalize perShardFF8 k size * (k - 1) = a at h1 ⊢
      omega
    · generalize perShardFF8 k size * (k - 1) = a at h1 ⊢
      omega
    · simp only [split8, if_neg hsz, if_neg h1]

/-- Claim C1 (amended): for every payload `D` of length `size` with
`0 < size < 1000` and every `k ≥ 1`, `m ≥ 1`, the stream split followed by
the stream join of the `k` data-shard streams with `outSize = size`
reproduces `D` exactly (for either seekability of the shard readers; these
sizes take `join`'s small-data paths).  For `size ≥ 1000` with seekable
readers the multi-reader join path can lose the final shard and fail — see
the counterexample. -/
theorem split_join_roundtrip (k m size : Nat) (D : List Nat) (seek : Bool)
    (hk : 1 ≤ k) (hm : 1 ≤ m) (hD : D.length = size) (h0 : 0 < size)
    (hlt : size < 1000) :
    ∃ S, split8 k size D = .ok S ∧ S.length = k ∧
      join8 k m seek (S.map some) size = .ok D := by
  obtain ⟨P, L, hL, hbound, heq⟩ := split8_loop_form k size h0
  obtain ⟨S, hok, hSlen, hjoin⟩ :=
    splitLoop_roundtrip P L (alignUp64 L) size hL (le_alignUp64 L) k hk D 0
      (by omega) (by omega)
  have hjoin2 : joinGreedyReads (S.map some) size = D := by rw [← hD]; exact hjoin
  refine ⟨S, by rw [heq D]; exact hok, hSlen, ?_⟩
  have hlenS : (S.map some).length = k := by simp [hSlen]
  have hne0 : ¬ ((S.map some).length = 0) := by omega
  have hfil : ((S.map some).filter Option.isSome).length = k := by
    rw [List.filter_eq_self.mpr (by
      intro a ha
      obtain ⟨b, _, rfl⟩ := List.mem_map.mp ha
      rfl)]
    exact hlenS
  unfold join8
  rw [if_neg hne0, if_neg (by omega)]
  by_cases hsm : size ≤ k
  · rw [if_pos hsm, hjoin2]
    simp [hD]
  · rw [if_neg hsm]
    have htrim : ¬ ((S.map some).length = k + m) := by omega
    rw [if_neg htrim, if_neg (by rw [hfil]; omega), if_neg (by rw [hfil]; omega),
      if_pos hlt, hjoin2]
    simp [hD]

/-- `P * r = P * (r - 1) + P` for `r ≥ 1`. -/
theorem mul_pred_add (P r : Nat) (hr : 1 ≤ r) : P * r = P * (r - 1) + P := by
  rcases r with _ | r2
  · omega
  · simp [Nat.mul_succ]

/-- The shard list `split` produces when the stream holds exactly
`P·(r-1) + L` bytes: `r - 1` full `P`-byte payload segments followed by the
remaining `L` bytes zero-extended to `AL`. -/
def splitShardsOf (P L AL : Nat) : Nat → List Nat → List (List Nat)
  | 0, _ => []
  | 1, s => [s ++ List.replicate (AL - L) 0]
  | r + 2, s => s.take P :: splitShardsOf P L AL (r + 1) (s.drop P)

theorem splitShardsOf_length (P L AL : Nat) :
    ∀ (r : Nat) (s : List Nat), (splitShardsOf P L AL r s).length = r := by
  intro r
  induction r with
  | zero => intro s; rfl
  | succ r ih =>
    intro s
    rcases r with _ | r2
    · rfl
    · simp only [splitShardsOf, List.length_cons, ih]

/-- The split loop on a stream of exactly `P·(r-1) + L` bytes succeeds and
produces `splitShardsOf`. -/
theorem splitLoop_shards (P L AL size : Nat) (hL : 1 ≤ L) :
    ∀ (r : Nat), 1 ≤ r → ∀ (s : List Nat) (t : Nat), s.length = P * (r - 1) + L →
      splitLoop P L AL size r s t = .ok (splitShardsOf P L AL r s) := by
  intro r
  induction r with
  | zero => intro h; omega
  | succ r ih =>
    intro _ s t hlen
    rcases r with _ | r2
    · have hsl : s.length = L := by simpa using hlen
      simp only [splitLoop]
      rw [if_neg (by rw [hsl]; intro hc; omega)]
      simp [splitLoop, splitShardsOf, Nat.min_eq_right (le_of_eq hsl),
        List.take_length, hsl]
    · have hr1 : 1 ≤ r2 + 1 := by omega
      have hr0 : ¬ (r2 + 1 = 0) := by omega
      have hexp : P * (r2 + 1) = P * r2 + P := Nat.mul_succ P r2
      have hsl : s.length = P * r2 + P + L := by
        have h2 : s.length = P * (r2 + 1) + L := by simpa using hlen
        omega
      have hP : P ≤ s.length := by omega
      conv_lhs => rw [splitLoop]
      simp only [if_neg hr0]
      rw [if_neg (by intro hc; omega)]
      have hmin : min P s.length = P := Nat.min_eq_left hP
      simp only [hmin]
      rw [ih hr1 (s.drop P) (t + P)
        (by simp only [List.length_drop, Nat.add_sub_cancel]; omega)]
      simp [splitShardsOf]

theorem splitShardsOf_get_lt (P L AL : Nat) :
    ∀ (r : Nat) (s : List Nat) (j : Nat), j + 1 < r →
      (splitShardsOf P L AL r s).get? j = some ((s.drop (j * P)).take P) := by
  intro r
  induction r with
  | zero => intro s j h; omega
  | succ r ih =>
    intro s j h
    rcases r with _ | r2
    · omega
    · cases j with
      | zero => simp [splitShardsOf]
      | succ j2 =>
        simp only [splitShardsOf, List.get?_cons_succ]
        rw [ih (s.drop P) j2 (by omega), List.drop_drop]
        rw [show (j2 + 1) * P = P + j2 * P from by rw [Nat.succ_mul, Nat.add_comm]]

theorem splitShardsOf_get_last (P L AL : Nat) :
    ∀ (r : Nat) (s : List Nat), 1 ≤ r →
      (splitShardsOf P L AL r s).get? (r - 1)
        = some (s.drop (P * (r - 1)) ++ List.replicate (AL - L) 0) := by
  intro r
  induction r with
  | zero => intro s h; omega
  | succ r ih =>
    intro s _
    rcases r with _ | r2
    · simp [splitShardsOf]
    · have hstep : r2 + 1 + 1 - 1 = (r2 + 1 - 1) + 1 := by omega
      simp only [splitShardsOf, hstep, List.get?_cons_succ]
      rw [ih (s.drop P) (by omega), List.drop_drop]
      rw [show P * (r2 + 1 - 1 + 1) = P + P * (r2 + 1 - 1) from by
        rw [Nat.mul_succ, Nat.add_comm]]

/-- Every split-loop run either fails with `ShortData` or succeeds. -/
theorem splitLoop_ok_or (P L AL size : Nat) :
    ∀ (r : Nat) (s : List Nat) (t : Nat),
      splitLoop P L AL size r s t = .error .shortData ∨
      ∃ S, splitLoop P L AL size r s t = .ok S := by
  intro r
  induction r with
  | zero => intro s t; exact Or.inr ⟨[], rfl⟩
  | succ r ih =>
    intro s t
    simp only [splitLoop]
    by_cases hc : s.length = 0 ∧ 0 < (if r = 0 then L else P)
    · rw [if_pos hc]
      by_cases ht : t < size
      · exact Or.inl (by rw [if_pos ht])
      · exact Or.inr ⟨_, by rw [if_neg ht]⟩
    · rw [if_neg hc]
      rcases ih (s.drop (min (if r = 0 then L else P) s.length))
          (t + min (if r = 0 then L else P) s.length) with h | ⟨S2, h⟩
      · exact Or.inl (by rw [h])
      · exact Or.inr ⟨_, by rw [h]⟩

/-- `ShortData` characterization of the split loop on an under-delivering
stream (`t + |s| < size`): the loop fails exactly when the stream runs out
at the start of some shard's non-empty read — i.e. when the stream fits
inside the first `r - 1` requests (`|s| ≤ P·(r-1)` with `P > 0`), or is
empty; a shortfall confined to the final shard's read is zero-filled and
succeeds. -/
theorem splitLoop_shortData (P L AL size : Nat) (hL : 1 ≤ L) :
    ∀ (r : Nat), 1 ≤ r → ∀ (s : List Nat) (t : Nat), t + s.length < size →
      (splitLoop P L AL size r s t = .error .shortData ↔
        (0 < P ∧ s.length ≤ P * (r - 1)) ∨ s.length = 0) := by
  intro r
  induction r with
  | zero => intro h; omega
  | succ r ih =>
    intro _ s t ht
    rcases Nat.eq_zero_or_pos r with hr | hr
    · subst hr
      by_cases hs : s.length = 0
      · have hsnil := List.eq_nil_of_length_eq_zero hs
        subst hsnil
        simp only [splitLoop]
        rw [if_pos ⟨rfl, by simpa using hL⟩, if_pos (by simpa using ht)]
        simp
      · simp only [splitLoop]
        rw [if_neg (by simp [hs])]
        simp [hs]
    · have hr0 : ¬ (r = 0) := by omega
      have hexp : P * r = P * (r - 1) + P := mul_pred_add P r hr
      by_cases hs : s.length = 0
      · have hsnil := List.eq_nil_of_length_eq_zero hs
        subst hsnil
        by_cases hP : 0 < P
        · simp only [splitLoop, if_neg hr0]
          rw [if_pos ⟨rfl, by simpa using hP⟩, if_pos (by simpa using ht)]
          simp
        · have hP0 : P = 0 := by omega
          subst hP0
          simp only [splitLoop, if_neg hr0]
          rw [if_neg (by simp)]
          have hrec : splitLoop 0 L AL size r [] t = .error .shortData :=
            (ih hr [] t (by simpa using ht)).mpr (Or.inr rfl)
          simp only [Nat.zero_min, List.drop_nil, Nat.add_zero, hrec]
          simp
      · simp only [splitLoop, if_neg hr0]
        rw [if_neg (by simp [hs])]
        have hmr := Nat.min_le_right P s.length
        have hml := Nat.min_le_left P s.length
        have hrec := ih hr (s.drop (min P s.length)) (t + min P s.length)
          (by simp only [List.length_drop]; omega)
        rcases hres : splitLoop P L AL size r (s.drop (min P s.length))
            (t + min P s.length) with e | S2
        · have he : e = RSErr.shortData := by
            rcases splitLoop_ok_or P L AL size r (s.drop (min P s.length))
                (t + min P s.length) with h | ⟨S3, h3⟩
            · rw [h] at hres
              injection hres with h4
              exact h4.symm
            · rw [h3] at hres
              cases hres
          subst he
          simp only [hres]
          have hcond := hrec.mp hres
          simp only [List.length_drop] at hcond
          constructor
          · intro _
            simp only [Nat.add_sub_cancel]
            rw [hexp]
            rcases hcond with ⟨h5, h6⟩ | h6 <;> (left; constructor <;> omega)
          · intro _; trivial
        · simp only [hres]
          have hnc : ¬ ((0 < P ∧ (s.drop (min P s.length)).length ≤ P * (r - 1)) ∨
              (s.drop (min P s.length)).length = 0) := by
            intro hcond
            rw [hrec.mpr hcond] at hres
            cases hres
          simp only [List.length_drop] at hnc
          constructor
          · intro hcontra
            cases hcontra
          · intro hcond
            exfalso
            apply hnc
            rcases hcond with ⟨h5, h6⟩ | h6
            · simp only [Nat.add_sub_cancel] at h6
              rw [hexp] at h6
              left; constructor <;> omega
            · omega

/-- In the regular regime (`perShard·(k-1) < size`) no adjustment branch of
`split8` fires: it is the split loop with `P = perShardFF8 k size` and
`L = size - P·(k-1)`. -/
theorem split8_eq_loop_reg (k size : Nat) (h0 : 0 < size)
    (hreg : perShardFF8 k size * (k - 1) < size) :
    ∀ X : List Nat,
      split8 k size X =
        splitLoop (perShardFF8 k size) (size - perShardFF8 k size * (k - 1))
          (alignUp64 (size - perShardFF8 k size * (k - 1))) size k X 0 := by
  intro X
  have hsz : ¬ (size = 0) := by omega
  have h1 : ¬ (size ≤ perShardFF8 k size * (k - 1)) := by omega
  simp only [split8, if_neg hsz, if_neg h1]

/-- Claim C2 (amended): for `k ≥ 1` and positive `size` in the regular
regime (no adjustment branch fires, i.e. `perShard·(k-1) < size`), splitting
a full-length stream succeeds with exactly `k` shards; each of the first
`k-1` shards receives exactly `perShard = alignUp64 (alignUp64 size / k)`
payload bytes — the code's formula, not `alignUp64 ⌈size / k⌉` — and the
last shard receives the remaining `size - (k-1)·perShard` payload bytes
zero-extended to the 64-aligned length.  An under-delivering stream fails
with `ShortData` exactly when it runs out before the last shard's read
begins (`|E| ≤ perShard·(k-1)` with `perShard > 0`) or is empty; a shortfall
confined to the last shard is zero-filled and accepted. -/
theorem stream_split_distribution (k size : Nat) (D : List Nat)
    (hk : 1 ≤ k) (h0 : 0 < size) (hD : D.length = size)
    (hreg : perShardFF8 k size * (k - 1) < size) :
    ∃ S, split8 k size D = .ok S ∧ S.length = k ∧
      (∀ j, j + 1 < k →
        S.get? j
          = some ((D.drop (j * perShardFF8 k size)).take (perShardFF8 k size)) ∧
        ((D.drop (j * perShardFF8 k size)).take (perShardFF8 k size)).length
          = perShardFF8 k size) ∧
      (∃ last, S.get? (k - 1) = some last ∧
        last.length = alignUp64 (size - perShardFF8 k size * (k - 1)) ∧
        last.length % 64 = 0 ∧
        last.take (size - perShardFF8 k size * (k - 1))
          = D.drop (perShardFF8 k size * (k - 1))) ∧
      (∀ E : List Nat, E.length < size →
        (split8 k size E = .error .shortData ↔
          (0 < perShardFF8 k size ∧ E.length ≤ perShardFF8 k size * (k - 1)) ∨
          E.length = 0)) := by
  have hL1 : 1 ≤ size - perShardFF8 k size * (k - 1) := by
    generalize perShardFF8 k size * (k - 1) = a at hreg ⊢
    omega
  have hsum : D.length
      = perShardFF8 k size * (k - 1) + (size - perShardFF8 k size * (k - 1)) := by
    rw [hD]
    generalize perShardFF8 k size * (k - 1) = a at hreg ⊢
    omega
  have heq := split8_eq_loop_reg k size h0 hreg
  have hok := splitLoop_shards (perShardFF8 k size)
      (size - perShardFF8 k size * (k - 1))
      (alignUp64 (size - perShardFF8 k size * (k - 1))) size hL1 k hk D 0 hsum
  refine ⟨_, by rw [heq D]; exact hok, splitShardsOf_length _ _ _ _ _, ?_, ?_, ?_⟩
  · intro j hj
    refine ⟨splitShardsOf_get_lt _ _ _ k D j hj, ?_⟩
    have hle : (j + 1) * perShardFF8 k size ≤ (k - 1) * perShardFF8 k size :=
      Nat.mul_le_mul_right _ (by omega)
    have hlt : (k - 1) * perShardFF8 k size < size := by
      rw [Nat.mul_comm]; exact hreg
    have hsucc : (j + 1) * perShardFF8 k size
        = j * perShardFF8 k size + perShardFF8 k size := Nat.succ_mul _ _
    simp only [List.length_take, List.length_drop, hD]
    omega
  · have hAL := le_alignUp64 (size - perShardFF8 k size * (k - 1))
    have hlen2 : (D.drop (perShardFF8 k size * (k - 1)) ++
        List.replicate (alignUp64 (size - perShardFF8 k size * (k - 1)) -
          (size - perShardFF8 k size * (k - 1))) 0).length
        = alignUp64 (size - perShardFF8 k size * (k - 1)) := by
      simp only [List.length_append, List.length_drop, List.length_replicate, hD]
      generalize hA : perShardFF8 k size * (k - 1) = a at hreg hAL ⊢
      generalize alignUp64 (size - a) = b at hAL ⊢
      omega
    refine ⟨_, splitShardsOf_get_last _ _ _ k D hk, hlen2, ?_, ?_⟩
    · rw [hlen2]
      exact alignUp64_mod _
    · exact List.take_left' (by
        simp only [List.length_drop, hD])
  · intro E hE
    rw [heq E]
    exact splitLoop_shortData (perShardFF8 k size)
      (size - perShardFF8 k size * (k - 1))
      (alignUp64 (size - perShardFF8 k size * (k - 1))) size hL1 k hk E 0
      (by omega)

/-- Witness for `stream_split_distribution` at `k = 2`, `size = 128`,
`D = 128 copies of 5` (here `perShard = 64` and `64·1 < 128`). -/
theorem stream_split_distribution_w :
    (1 ≤ 2 ∧ 0 < 128 ∧ (List.replicate 128 (5:Nat)).length = 128 ∧
      perShardFF8 2 128 * (2 - 1) < 128) ∧
    (∃ S, split8 2 128 (List.replicate 128 (5:Nat)) = .ok S ∧ S.length = 2 ∧
      (∀ j, j + 1 < 2 →
        S.get? j
          = some (((List.replicate 128 (5:Nat)).drop
              (j * perShardFF8 2 128)).take (perShardFF8 2 128)) ∧
        (((List.replicate 128 (5:Nat)).drop
            (j * perShardFF8 2 128)).take (perShardFF8 2 128)).length
          = perShardFF8 2 128) ∧
      (∃ last, S.get? (2 - 1) = some last ∧
        last.length = alignUp64 (128 - perShardFF8 2 128 * (2 - 1)) ∧
        last.length % 64 = 0 ∧
        last.take (128 - perShardFF8 2 128 * (2 - 1))
          = (List.replicate 128 (5:Nat)).drop (perShardFF8 2 128 * (2 - 1))) ∧
      (∀ E : List Nat, E.length < 128 →
        (split8 2 128 E = .error .shortData ↔
          (0 < perShardFF8 2 128 ∧ E.length ≤ perShardFF8 2 128 * (2 - 1)) ∨
          E.length = 0))) :=
  ⟨⟨by omega, by omega, by simp, by decide⟩,
    stream_split_distribution 2 128 (List.replicate 128 5) (by omega) (by omega)
      (by simp) (by decide)⟩

/-- Counterexample to claim C2 as stated: (i) at `(k, size) = (65, 4161)`
the code's per-shard budget `alignUp64 (alignUp64 4161 / 65)` is `64` and
the first shard indeed receives 64 bytes, while the claimed
`alignUp64 ⌈4161 / 65⌉` is `128`; (ii) at `(k, size) = (2, 128)` a stream
delivering only 100 of the announced 128 bytes is accepted (the shortfall
falls inside the last shard's read and is zero-filled), not rejected with
`ShortData`. -/
theorem split_distribution_cex :
    perShardFF8 65 4161 = 64 ∧
    alignUp64 ((4161 + 65 - 1) / 65) = 128 ∧
    (∃ S sh, split8 65 4161 (List.replicate 4161 (7:Nat)) = .ok S ∧
      S.get? 0 = some sh ∧ sh.length = 64) ∧
    isOkE (split8 2 128 (List.replicate 100 (5:Nat))) = true := by
  have hP : perShardFF8 65 4161 = 64 := by decide
  have hreg : perShardFF8 65 4161 * (65 - 1) < 4161 := by rw [hP]; omega
  have hL1 : (1:Nat) ≤ 4161 - perShardFF8 65 4161 * (65 - 1) := by rw [hP]; omega
  have hsum : (List.replicate 4161 (7:Nat)).length
      = perShardFF8 65 4161 * (65 - 1)
        + (4161 - perShardFF8 65 4161 * (65 - 1)) := by
    rw [hP]
    simp only [List.length_replicate]
  have hok := splitLoop_shards (perShardFF8 65 4161)
      (4161 - perShardFF8 65 4161 * (65 - 1))
      (alignUp64 (4161 - perShardFF8 65 4161 * (65 - 1))) 4161 hL1 65 (by omega)
      (List.replicate 4161 7) 0 hsum
  refine ⟨hP, by decide,
    ⟨_, _, by rw [split8_eq_loop_reg 65 4161 (by omega) hreg]; exact hok,
      splitShardsOf_get_lt _ _ _ 65 _ 0 (by omega), ?_⟩, ?_⟩
  · simp only [List.length_take, List.length_drop, List.length_replicate, hP]
    omega
  · have hP2 : perShardFF8 2 128 = 64 := by decide
    have hreg2 : perShardFF8 2 128 * (2 - 1) < 128 := by rw [hP2]; omega
    have hiff := splitLoop_shortData (perShardFF8 2 128)
        (128 - perShardFF8 2 128 * (2 - 1))
        (alignUp64 (128 - perShardFF8 2 128 * (2 - 1))) 128
        (by rw [hP2]; omega) 2 (by omega) (List.replicate 100 5) 0 (by simp)
    rcases splitLoop_ok_or (perShardFF8 2 128) (128 - perShardFF8 2 128 * (2 - 1))
        (alignUp64 (128 - perShardFF8 2 128 * (2 - 1))) 128 2
        (List.replicate 100 5) 0 with hc | ⟨S2, hS2⟩
    · exfalso
      rcases hiff.mp hc with ⟨h5, h6⟩ | h6
      · rw [hP2] at h6
        simp at h6
      · simp at h6
    · rw [split8_eq_loop_reg 2 128 (by omega) hreg2, hS2]
      rfl

/-- Every shard produced by the split loop is at most `max P AL` long. -/
theorem splitShardsOf_mem_length (P L AL : Nat) (hAL : L ≤ AL) :
    ∀ (r : Nat) (s : List Nat), s.length = P * (r - 1) + L →
      ∀ x ∈ splitShardsOf P L AL r s, x.length ≤ max P AL := by
  intro r
  induction r with
  | zero => intro s hs x hx; simp [splitShardsOf] at hx
  | succ r ih =>
    intro s hs x hx
    rcases r with _ | r2
    · simp only [splitShardsOf, List.mem_singleton] at hx
      subst hx
      have hsl : s.length = L := by simpa using hs
      simp only [List.length_append, List.length_replicate, hsl]
      omega
    · simp only [splitShardsOf, List.mem_cons] at hx
      rcases hx with rfl | hx
      · simp only [List.length_take]
        omega
      · refine ih (s.drop P) ?_ x hx
        simp only [List.length_drop, hs, Nat.add_sub_cancel]
        rw [Nat.mul_succ]
        omega

/-- Dropping the last shard and concatenating gives exactly the first
`P·(r-1)` bytes of the stream. -/
theorem splitShardsOf_dropLast_join (P L AL : Nat) :
    ∀ (r : Nat) (s : List Nat), 1 ≤ r → P * (r - 1) ≤ s.length →
      ((splitShardsOf P L AL r s).dropLast).join = s.take (P * (r - 1)) := by
  intro r
  induction r with
  | zero => intro s h; omega
  | succ r ih =>
    intro s _ hle
    rcases r with _ | r2
    · simp [splitShardsOf]
    · have hcons : ∃ a l, splitShardsOf P L AL (r2 + 1) (s.drop P) = a :: l := by
        rcases r2 with _ | r3
        · exact ⟨_, _, rfl⟩
        · exact ⟨_, _, rfl⟩
      obtain ⟨a, l, hal⟩ := hcons
      rw [show splitShardsOf P L AL (r2 + 1 + 1) s
          = s.take P :: splitShardsOf P L AL (r2 + 1) (s.drop P) from rfl, hal]
      rw [show List.dropLast (s.take P :: a :: l)
          = s.take P :: List.dropLast (a :: l) from rfl]
      rw [← hal]
      rw [show (List.take P s
            :: (splitShardsOf P L AL (r2 + 1) (List.drop P s)).dropLast).join
          = List.take P s
            ++ ((splitShardsOf P L AL (r2 + 1) (List.drop P s)).dropLast).join
        from rfl]
      rw [ih (s.drop P) (by omega) (by
        simp only [List.length_drop, Nat.add_sub_cancel]
        simp only [Nat.add_sub_cancel] at hle
        rw [Nat.mul_succ] at hle
        omega)]
      simp only [Nat.add_sub_cancel]
      rw [show P * (r2 + 1) = P + P * r2 from by rw [Nat.mul_succ, Nat.add_comm],
        List.take_add]

/-- One-step unfolding of `multiReaderParts` at a non-nil reader. -/
theorem multiReaderParts_cons_some (perShard outSize lastIdx i cnt : Nat)
    (sh : List Nat) (rest : List (Option (List Nat))) :
    multiReaderParts perShard outSize lastIdx i cnt (some sh :: rest)
      = if i = lastIdx then
          if outSize ≤ cnt * perShard then []
          else [sh.take (outSize - cnt * perShard)]
        else sh.take perShard
          :: multiReaderParts perShard outSize lastIdx (i + 1) (cnt + 1) rest := rfl

/-- The reader-building loop of `joinWithMultiReader` on a full run of
non-nil shard readers each no longer than `perShard`: when the budget
`outSize` fits inside the first `|l| - 1` limited readers, the final shard
is dropped (`break` on a non-positive last limit) and the parts are exactly
the earlier shards. -/
theorem multiReaderParts_short (perShard outSize : Nat) :
    ∀ (l : List (List Nat)) (i cnt lastIdx : Nat), l ≠ [] →
      lastIdx = i + (l.length - 1) →
      (∀ x ∈ l, x.length ≤ perShard) →
      outSize ≤ (cnt + (l.length - 1)) * perShard →
      multiReaderParts perShard outSize lastIdx i cnt (l.map some)
        = l.dropLast := by
  intro l
  induction l with
  | nil => intro i cnt lastIdx h _ _ _; exact absurd rfl h
  | cons x rest ih =>
    intro i cnt lastIdx _ hIdx hall hbud
    rcases rest with _ | ⟨y, rest2⟩
    · simp only [List.length_cons, List.length_nil, Nat.add_sub_cancel,
        Nat.add_zero] at hIdx
      simp only [List.map_cons, List.map_nil, multiReaderParts_cons_some]
      rw [if_pos hIdx.symm, if_pos (by simpa using hbud)]
      rfl
    · simp only [List.length_cons, Nat.add_sub_cancel] at hIdx hbud
      rw [List.map_cons, multiReaderParts_cons_some]
      rw [if_neg (by omega)]
      rw [ih (i + 1) (cnt + 1) lastIdx (by simp)
        (by simp only [List.length_cons, Nat.add_sub_cancel]; omega)
        (fun z hz => hall z (List.mem_cons_of_mem x hz)) (by
          simp only [List.length_cons, Nat.add_sub_cancel]
          rw [show cnt + 1 + rest2.length = cnt + (rest2.length + 1) from by omega]
          exact hbud)]
      rw [List.take_all_of_le (hall x (List.mem_cons_self x (y :: rest2)))]
      rfl

/-- Counterexample to claim C1 as stated: at `(k, m) = (65, 1)` and
`size = 4161` with seekable shard readers, `split` succeeds (65 shards:
64 payload shards of 64 bytes and a 128-byte final shard), but `join`
takes the multi-reader dispatch (`1000 ≤ 4161 ≤ 10 MiB`, all seekable) with
`perShard = alignUp64 ⌈4161/65⌉ = 128`; the last reader's limit
`outSize - 64·128` is non-positive, so the final shard is dropped, only
`64·64 = 4096 < 4161` bytes are available, and join returns `ShortData`
instead of the payload. -/
theorem split_join_multireader_cex :
    ∃ S, split8 65 4161 (List.replicate 4161 (7:Nat)) = .ok S ∧ S.length = 65 ∧
      join8 65 1 true (S.map some) 4161 = .error .shortData := by
  have hP : perShardFF8 65 4161 = 64 := by decide
  have hreg : perShardFF8 65 4161 * (65 - 1) < 4161 := by rw [hP]; omega
  have hL1 : (1:Nat) ≤ 4161 - perShardFF8 65 4161 * (65 - 1) := by rw [hP]; omega
  have hsum : (List.replicate 4161 (7:Nat)).length
      = perShardFF8 65 4161 * (65 - 1)
        + (4161 - perShardFF8 65 4161 * (65 - 1)) := by
    rw [hP]
    simp only [List.length_replicate]
  have hok := splitLoop_shards (perShardFF8 65 4161)
      (4161 - perShardFF8 65 4161 * (65 - 1))
      (alignUp64 (4161 - perShardFF8 65 4161 * (65 - 1))) 4161 hL1 65 (by omega)
      (List.replicate 4161 7) 0 hsum
  set S := splitShardsOf (perShardFF8 65 4161)
      (4161 - perShardFF8 65 4161 * (65 - 1))
      (alignUp64 (4161 - perShardFF8 65 4161 * (65 - 1))) 65
      (List.replicate 4161 (7:Nat)) with hSdef
  have hSlen : S.length = 65 := splitShardsOf_length _ _ _ _ _
  refine ⟨S, by rw [split8_eq_loop_reg 65 4161 (by omega) hreg]; exact hok,
    hSlen, ?_⟩
  have hmaplen : (S.map some).length = 65 := by simp [hSlen]
  have hfil : ((S.map some).filter Option.isSome).length = 65 := by
    rw [List.filter_eq_self.mpr (by
      intro a ha
      obtain ⟨b, _, rfl⟩ := List.mem_map.mp ha
      rfl)]
    exact hmaplen
  have hmem : ∀ x ∈ S, x.length ≤ 128 := by
    intro x hx
    have hALle : (4161 - perShardFF8 65 4161 * (65 - 1))
        ≤ alignUp64 (4161 - perShardFF8 65 4161 * (65 - 1)) :=
      le_alignUp64 _
    have h2 := splitShardsOf_mem_length (perShardFF8 65 4161)
        (4161 - perShardFF8 65 4161 * (65 - 1))
        (alignUp64 (4161 - perShardFF8 65 4161 * (65 - 1))) hALle
        65 (List.replicate 4161 7) hsum x (hSdef ▸ hx)
    have hAL128 : alignUp64 (4161 - perShardFF8 65 4161 * (65 - 1)) = 128 := by
      rw [hP]; decide
    rw [hAL128, hP] at h2
    omega
  have hSne : S ≠ [] := by
    intro hc
    rw [hc] at hSlen
    simp at hSlen
  have hmrp : multiReaderParts 128 4161 ((S.map some).length - 1) 0 0 (S.map some)
      = S.dropLast := by
    refine multiReaderParts_short 128 4161 S 0 0 ((S.map some).length - 1) hSne
      ?_ hmem ?_
    · rw [hmaplen, hSlen]
    · rw [hSlen]
      omega
  have hdl : S.dropLast.join
      = (List.replicate 4161 (7:Nat)).take (perShardFF8 65 4161 * (65 - 1)) := by
    rw [hSdef]
    exact splitShardsOf_dropLast_join _ _ _ 65 _ (by omega)
      (by rw [hP]; simp only [List.length_replicate]; omega)
  have hjlen : S.dropLast.join.length = 4096 := by
    rw [hdl, List.length_take, List.length_replicate, hP]
    omega
  have hne0 : ¬ ((S.map some).length = 0) := by rw [hmaplen]; omega
  have hsz0 : ¬ ((4161:Nat) = 0) := by omega
  have htiny : ¬ ((4161:Nat) ≤ 65) := by omega
  have htrim : ¬ ((S.map some).length = 65 + 1) := by rw [hmaplen]; omega
  have hfil1 : ¬ (((S.map some).filter Option.isSome).length < 65) := by
    rw [hfil]; omega
  have hfil2 : ¬ (((S.map some).filter Option.isSome).length = 0) := by
    rw [hfil]; omega
  have hsmall : ¬ ((4161:Nat) < 1000) := by omega
  unfold join8
  rw [if_neg hne0, if_neg hsz0, if_neg htiny, if_neg htrim, if_neg hfil1,
    if_neg hfil2, if_neg hsmall,
    if_pos (by simp : (4161:Nat) ≤ 10485760 ∧ (true:Bool) = true)]
  have hps : alignUp64 ((4161 + 65 - 1) / 65) = 128 := by decide
  simp only [joinWithMultiReader8, hps]
  rw [hmrp, hjlen, if_pos (by omega)]

/-- Witness for `split_join_roundtrip`: the S4 sizes `(k, m) = (4, 2)`,
`size = 65`, payload `B i = i % 256`, seekable readers. -/
theorem split_join_roundtrip_w :
    (1 ≤ 4 ∧ 1 ≤ 2 ∧ ((List.range 65).map (· % 256)).length = 65 ∧
      0 < 65 ∧ 65 < 1000) ∧
    (∃ S, split8 4 65 ((List.range 65).map (· % 256)) = .ok S ∧ S.length = 4 ∧
      join8 4 2 true (S.map some) 65 = .ok ((List.range 65).map (· % 256))) :=
  ⟨⟨by omega, by omega, by simp, by omega, by omega⟩,
    split_join_roundtrip 4 2 65 ((List.range 65).map (· % 256)) true
      (by omega) (by omega) (by simp) (by omega) (by omega)⟩
